import Mathlib

/-!
Shallow embedding of the VNG data-analyzer core (JavaScript repository):
the text parser (`parseVngText`, modules/parser.js), the statistics
utilities (`calculateStdDev`, `calculatePercentChange`, utils/statistics.js)
and the cross-file analyzer (`runAnalysis`, modules/analyzer.js).

JavaScript numbers are idealized as rationals (`ℚ`); the standard-deviation
result, produced by `Math.sqrt`, lives in `ℝ`.  JavaScript objects used as
string-keyed dictionaries are modelled as association lists in insertion
order: updating an existing key keeps its position, a new key is appended,
matching JS object key iteration order.  `null`/`undefined` function inputs
are modelled with `Option`; for `calculateStdDev`, whose filter also removes
`NaN` entries, the element type `JsVal` distinguishes numbers, `NaN` and
`null`/`undefined`.
-/

/-- JS `\s` whitespace class (the characters that can occur in this ASCII
text pipeline). -/
def jsWs (c : Char) : Bool :=
  c = ' ' || c = '\t' || c = '\n' || c = '\r' || c = '\x0b' || c = '\x0c'

/-- JS `String.prototype.trim` on a character list. -/
def trimC (cs : List Char) : List Char :=
  ((cs.dropWhile jsWs).reverse.dropWhile jsWs).reverse

/-- Character class `[\d.-]` of the value-line regex. -/
def numChar (c : Char) : Bool := c.isDigit || c = '.' || c = '-'

/-- Character class `[\s%a-zA-Z]` of the value-line regex. -/
def noiseChar (c : Char) : Bool := jsWs c || c = '%' || c.isAlpha

/-- The literal `| FLAG` marker matched by capture group 2 of the
value-line regex. -/
def flagChars : List Char := ['|', ' ', 'F', 'L', 'A', 'G']

/-- Backtracking tail of the regex `[\s%a-zA-Z]*?(\| FLAG)?$`: the lazy
noise class expands one character at a time, at each stop first trying the
flag group, then the empty group with end-of-input.  Returns whether the
flag group matched. -/
def matchTail : List Char → Option Bool
  | [] => some false
  | c :: rest =>
    if c :: rest = flagChars then some true
    else if noiseChar c then matchTail rest
    else none

/-- Backtracking over the greedy `[\d.-]+` group: `numRev` holds the
digits consumed so far (reversed); on failure of the tail the group gives
one character back.  Returns the group-1 capture and the flag. -/
def numLoop : List Char → List Char → Option (List Char × Bool)
  | [], _ => none
  | c :: numRev, r =>
    match matchTail r with
    | some b => some ((c :: numRev).reverse, b)
    | none => numLoop numRev (c :: r)

/-- Matching of `([\d.-]+)[\s%a-zA-Z]*?(\| FLAG)?$` against the input after
the literal `: `. -/
def matchFrom (rest : List Char) : Option (List Char × Bool) :=
  numLoop (rest.takeWhile numChar).reverse (rest.dropWhile numChar)

/-- `valueRegex.exec`: leftmost match of
`/: ([\d.-]+)[\s%a-zA-Z]*?(\| FLAG)?$/` — try every start position left to
right; a start must sit on the literal `": "`.  Returns the group-1 capture
and whether group 2 (the `| FLAG` marker) matched. -/
def execValue : List Char → Option (List Char × Bool)
  | [] => none
  | c :: rest =>
    match
      (if c = ':' then
        match rest with
        | ' ' :: rest2 => matchFrom rest2
        | _ => none
      else none) with
    | some res => some res
    | none => execValue rest

/-- Numeric value of a list of decimal digit characters. -/
def digitsToNat (ds : List Char) : Nat :=
  ds.foldl (fun a c => 10 * a + (c.toNat - 48)) 0

/-- JS `parseFloat` restricted to strings over `[\d.-]` (the only strings
the parser feeds it): optional leading minus, integer digits, optional
fractional digits; `none` models `NaN`. -/
def jsParseFloat (cs : List Char) : Option ℚ :=
  let neg : Bool := match cs with | '-' :: _ => true | _ => false
  let cs1 : List Char := match cs with | '-' :: t => t | _ => cs
  let ip := cs1.takeWhile Char.isDigit
  let r1 := cs1.dropWhile Char.isDigit
  let fp : List Char := match r1 with | '.' :: t => t.takeWhile Char.isDigit | _ => []
  if ip.isEmpty && fp.isEmpty then none
  else
    let mag : ℚ := (digitsToNat ip : ℚ) + (digitsToNat fp : ℚ) / (10 : ℚ) ^ fp.length
    some (if neg then -mag else mag)

/-- `trimmedLine.substring(0, trimmedLine.indexOf(':'))`: the text before
the first colon, or `none` when there is no colon (`indexOf` = -1). -/
def beforeColon : List Char → Option (List Char)
  | [] => none
  | c :: rest => if c = ':' then some [] else (beforeColon rest).map (c :: ·)

/-- Does `\s*\([^)]+\)$` match starting exactly at this suffix? -/
def parenMatchAt (cs : List Char) : Bool :=
  match cs.dropWhile jsWs with
  | '(' :: rest =>
    let inner := rest.takeWhile (fun c => c != ')')
    !inner.isEmpty && (rest.drop inner.length == [')'])
  | _ => false

/-- `metricName.replace(/\s*\([^)]+\)$/, '')`: delete the leftmost (hence
only) match of the end-anchored parenthesized-suffix pattern. -/
def replaceParen : List Char → List Char
  | [] => []
  | c :: rest => if parenMatchAt (c :: rest) then [] else c :: replaceParen rest

/-- JS `String.prototype.endsWith` on character lists. -/
def endsWithC (suffix cs : List Char) : Bool :=
  suffix.reverse.isPrefixOf cs.reverse

/-- JS `String.prototype.includes` on character lists (`hasInfix needle hay`). -/
def hasInfix (needle : List Char) : List Char → Bool
  | [] => needle.isEmpty
  | c :: t => needle.isPrefixOf (c :: t) || hasInfix needle t

/-- The text of the skipped findings-summary header test. -/
def summaryChars : List Char := "Summary of Flagged Findings".data

/-- One metric reading: `{value, isFlagged}` (domain/models.js MetricValue). -/
structure MetricValue where
  value : ℚ
  isFlagged : Bool
deriving DecidableEq, Repr

/-- A JS object used as a string-keyed dictionary of dictionaries, in
insertion order. -/
abbrev NestedMap (α : Type) := List (String × List (String × α))

/-- The parser result type: category → metric → reading. -/
abbrev DataMap := NestedMap MetricValue

/-- Single-level JS object lookup. -/
def getAssoc {α : Type} : List (String × α) → String → Option α
  | [], _ => none
  | (k1, v1) :: t, k => if k1 = k then some v1 else getAssoc t k

/-- Single-level JS object key update: existing key keeps its position,
new key is appended. -/
def setAssoc {α : Type} : List (String × α) → String → α → List (String × α)
  | [], k, v => [(k, v)]
  | (k1, v1) :: t, k, v => if k1 = k then (k, v) :: t else (k1, v1) :: setAssoc t k v

/-- Two-level lookup `mp[c][m]`. -/
def getNested {α : Type} (mp : NestedMap α) (c m : String) : Option α :=
  (getAssoc mp c).bind (fun ms => getAssoc ms m)

/-- Two-level update `mp[c][m] = v`, creating `mp[c]` when absent
(`if (!(c in mp)) mp[c] = {}` in the source). -/
def setNested {α : Type} : NestedMap α → String → String → α → NestedMap α
  | [], c, m, v => [(c, [(m, v)])]
  | (c1, ms) :: t, c, m, v =>
    if c1 = c then (c, setAssoc ms m v) :: t else (c1, ms) :: setNested t c m v

/-- Parser loop state: the current-category cursor and the map built so far. -/
structure PState where
  cat : String
  map : DataMap
deriving DecidableEq, Repr

/-- The body of the parser's per-line loop (parser.js lines 28–81). -/
def parseLine (st : PState) (line : List Char) : PState :=
  let t := trimC line
  if t.isEmpty then st
  else
    match execValue t with
    | some (numStr, flagged) =>
      match jsParseFloat numStr with
      | none => st
      | some v =>
        match beforeColon t with
        | none => st
        | some pre =>
          let mName := trimC (replaceParen (trimC pre))
          { st with map := setNested st.map st.cat (String.mk mName) ⟨v, flagged⟩ }
    | none =>
      if endsWithC [':'] t && !(execValue t).isSome then
        if !hasInfix summaryChars t then
          let c1 := trimC t.dropLast
          let c2 := if endsWithC [' ', '/', '/'] c1 then trimC (c1.take (c1.length - 3)) else c1
          { st with cat := String.mk c2 }
        else st
      else st

/-- JS `String.prototype.split` with a single-character separator. -/
def splitOnCharC (sep : Char) : List Char → List (List Char)
  | [] => [[]]
  | c :: t =>
    if c = sep then [] :: splitOnCharC sep t
    else
      match splitOnCharC sep t with
      | [] => [[c]]
      | h :: r => (c :: h) :: r

/-- `parseVngText` (modules/parser.js): split the raw text into lines,
fold the per-line parser over them starting from category `"General"`,
return the accumulated map.  The falsy-input guard returns an empty map
for the empty string. -/
def parseVngText (text : String) : DataMap :=
  if text = "" then []
  else ((splitOnCharC '\n' text.data).foldl parseLine ⟨"General", []⟩).map

/-- A JavaScript value as fed to the statistics filters: a (non-NaN)
number, `NaN`, or `null`/`undefined` (the two are indistinguishable to
the filter `v !== null && v !== undefined && !isNaN(v)`). -/
inductive JsVal where
  | num : ℚ → JsVal
  | nan : JsVal
  | nullv : JsVal
deriving DecidableEq, Repr

/-- The number carried by a `JsVal` that survives the validity filter. -/
def JsVal.toNum : JsVal → Option ℚ
  | .num q => some q
  | _ => none

/-- The `(sum of squared deviations from the mean) / (n - 1)` sample
variance computed by `calculateStdDev` before taking the square root,
with the source's left-to-right reduce sums. -/
def sampleVarianceAux (valid : List ℚ) : ℚ :=
  let n : ℚ := valid.length
  let mean := valid.foldl (· + ·) 0 / n
  (valid.foldl (fun s v => s + (v - mean) ^ 2) 0) / (n - 1)

/-- `calculateStdDev` (utils/statistics.js lines 10–29): 0 with fewer than
two entries or fewer than two valid (non-null, non-NaN) entries, else the
square root of the sample variance of the valid entries. -/
noncomputable def calculateStdDev (values : List JsVal) : ℝ :=
  if values.length < 2 then 0
  else
    let valid := values.filterMap JsVal.toNum
    if valid.length < 2 then 0
    else Real.sqrt ((sampleVarianceAux valid : ℚ) : ℝ)

/-- `calculatePercentChange` (utils/statistics.js lines 38–50): `none`
models a `null`/`undefined` argument or result. -/
def calculatePercentChange (baseline newValue : Option ℚ) : Option ℚ :=
  match baseline, newValue with
  | none, _ => none
  | _, none => none
  | some b, some n =>
    if b = 0 then (if n = 0 then some 0 else none)
    else some ((n - b) / b * 100)

/-- One parsed input file handed to the analyzer:
`{'name': string, 'data': {category: {metric: {value, isFlagged}}}}`. -/
structure FileData where
  name : String
  data : DataMap

/-- One analyzer output series:
`{values, flags, delta, stdDev, percentChange}`. -/
structure MetricData where
  values : List ℚ
  flags : List Bool
  delta : Option ℚ
  stdDev : Option ℝ
  percentChange : Option ℚ

/-- The analyzer result type: category → metric → series. -/
abbrev ResMap := NestedMap MetricData

/-- The `${category}::${metric}` pair key of the analyzer. -/
def joinKey (c m : String) : String := c ++ "::" ++ m

/-- JS `Set.prototype.add`: append if not already present. -/
def setAdd (s : List String) (x : String) : List String :=
  if x ∈ s then s else s ++ [x]

/-- The `(category, metric)` pair-key set of one file's data, in the
analyzer's iteration (insertion) order. -/
def pairsOf (d : DataMap) : List String :=
  d.foldl (fun acc ce => ce.2.foldl (fun acc2 me => setAdd acc2 (joinKey ce.1 me.1)) acc) []

/-- JS `key.split('::')` followed by `const [category, metric] = parts`:
leftmost non-overlapping splitting on `"::"`, keeping the first two parts
(a missing second part destructures to `undefined`, which JS then coerces
to the property key `"undefined"`; unreachable for keys built by
`joinKey`). -/
def splitColons (acc : List Char) : List Char → List (List Char)
  | [] => [acc.reverse]
  | [c] => [(c :: acc).reverse]
  | c :: c2 :: rest =>
    if c = ':' ∧ c2 = ':' then acc.reverse :: splitColons [] rest
    else splitColons (c :: acc) (c2 :: rest)

/-- See `splitColons`. -/
def splitPair (s : String) : String × String :=
  match splitColons [] s.data with
  | a :: b :: _ => (String.mk a, String.mk b)
  | [a] => (String.mk a, "undefined")
  | [] => ("", "undefined")

/-- The per-pair value/flag collection loop: one entry per file that has
the pair, in file order (files lacking it are skipped). -/
def mkEntries (l : List FileData) (c m : String) : List MetricValue :=
  l.filterMap (fun fd => getNested fd.data c m)

/-- The series stored for a surviving pair (analyzer.js lines 85–110):
`delta`/`percentChange` only with exactly two files, `stdDev` with two or
more. -/
noncomputable def mkSeries (l : List FileData) (c m : String) : MetricData :=
  let values := (mkEntries l c m).map MetricValue.value
  let flags := (mkEntries l c m).map MetricValue.isFlagged
  { values := values
    flags := flags
    delta := if l.length = 2 then some (values.getD 1 0 - values.getD 0 0) else none
    stdDev := if 2 ≤ l.length then some (calculateStdDev (values.map JsVal.num)) else none
    percentChange :=
      if l.length = 2 then calculatePercentChange values[0]? values[1]? else none }

/-- The body of the analyzer's per-pair loop: skip the pair unless every
file contributed an entry (`values.length !== fileDataList.length`),
otherwise store its series. -/
noncomputable def analyzeStep (l : List FileData) (res : ResMap) (pair : String) : ResMap :=
  let p := splitPair pair
  if (mkEntries l p.1 p.2).length = l.length then
    setNested res p.1 p.2 (mkSeries l p.1 p.2)
  else res

/-- `runAnalysis` (modules/analyzer.js): empty input gives an empty result;
otherwise the pair keys of the first file are intersected with those of
every later file, and each surviving pair is analyzed. -/
noncomputable def runAnalysis (l : List FileData) : ResMap :=
  match l with
  | [] => []
  | f0 :: rest =>
    let common :=
      rest.foldl (fun acc fd => acc.filter (fun p => decide (p ∈ pairsOf fd.data))) (pairsOf f0.data)
    common.foldl (analyzeStep l) []

/-- Do all category and metric names of a file map avoid the colon
character?  (Colon-bearing names collide with the analyzer's `"::"` pair
keys.) -/
def colonFreeData (d : DataMap) : Bool :=
  d.all (fun ce => ce.1.data.all (fun ch => ch != ':') &&
    ce.2.all (fun me => me.1.data.all (fun ch => ch != ':')))

/-- The category/metric key structure of a parsed file, with the readings
erased — two files "parse to the same category/metric key structure" when
their `keyShape`s are equal. -/
def keyShape (d : DataMap) : List (String × List String) :=
  d.map (fun ce => (ce.1, ce.2.map Prod.fst))

theorem getAssoc_setAssoc_same {α : Type} (s : List (String × α)) (k : String) (v : α) :
    getAssoc (setAssoc s k v) k = some v := by
  induction s with
  | nil => simp [setAssoc, getAssoc]
  | cons h t ih =>
    obtain ⟨k1, v1⟩ := h
    by_cases hk : k1 = k
    · simp [setAssoc, getAssoc, hk]
    · simp [setAssoc, getAssoc, hk, ih]

theorem getAssoc_setAssoc_diff {α : Type} (s : List (String × α)) (k k2 : String) (v : α)
    (h : k ≠ k2) : getAssoc (setAssoc s k v) k2 = getAssoc s k2 := by
  induction s with
  | nil => simp [setAssoc, getAssoc, h]
  | cons hd t ih =>
    obtain ⟨k1, v1⟩ := hd
    by_cases hk : k1 = k
    · simp [setAssoc, getAssoc, hk, h]
    · simp [setAssoc, getAssoc, hk, ih]

theorem getNested_setNested_same {α : Type} (d : NestedMap α) (c m : String) (v : α) :
    getNested (setNested d c m v) c m = some v := by
  induction d with
  | nil => simp [setNested, getNested, getAssoc, getAssoc_setAssoc_same]
  | cons hd t ih =>
    obtain ⟨c1, ms⟩ := hd
    by_cases hc : c1 = c
    · simp [setNested, getNested, getAssoc, hc, getAssoc_setAssoc_same]
    · simpa [setNested, getNested, getAssoc, hc] using ih

theorem getNested_setNested_diff {α : Type} (d : NestedMap α) (c m c2 m2 : String) (v : α)
    (h : ¬(c = c2 ∧ m = m2)) :
    getNested (setNested d c m v) c2 m2 = getNested d c2 m2 := by
  induction d with
  | nil =>
    by_cases hc : c = c2
    · subst hc
      have hm : m ≠ m2 := fun hm => h ⟨rfl, hm⟩
      simp [setNested, getNested, getAssoc, hm]
    · simp [setNested, getNested, getAssoc, hc]
  | cons hd t ih =>
    obtain ⟨c1, ms⟩ := hd
    by_cases hc1 : c1 = c
    · subst hc1
      by_cases hc : c1 = c2
      · subst hc
        have hm : m ≠ m2 := fun hm => h ⟨rfl, hm⟩
        simp [setNested, getNested, getAssoc, getAssoc_setAssoc_diff _ _ _ _ hm]
      · simp [setNested, getNested, getAssoc, hc]
    · by_cases hc : c1 = c2
      · subst hc
        simp [setNested, getNested, getAssoc, hc1]
      · simpa [setNested, getNested, getAssoc, hc1, hc] using ih

theorem mem_of_getAssoc {α : Type} (s : List (String × α)) (k : String) (v : α)
    (h : getAssoc s k = some v) : (k, v) ∈ s := by
  induction s with
  | nil => simp [getAssoc] at h
  | cons hd t ih =>
    obtain ⟨k1, v1⟩ := hd
    by_cases hk : k1 = k
    · subst hk
      simp [getAssoc] at h
      simp [h]
    · simp [getAssoc, hk] at h
      exact List.mem_cons_of_mem _ (ih h)

theorem mem_setAdd_of_mem (s : List String) (x y : String) (h : y ∈ s) : y ∈ setAdd s x := by
  unfold setAdd
  split
  · exact h
  · exact List.mem_append_left _ h

theorem mem_setAdd_self (s : List String) (x : String) : x ∈ setAdd s x := by
  unfold setAdd
  split
  · assumption
  · simp

theorem mem_setAdd_elim (s : List String) (x y : String) (h : y ∈ setAdd s x) :
    y ∈ s ∨ y = x := by
  unfold setAdd at h
  split at h
  · exact Or.inl h
  · rcases List.mem_append.mp h with h1 | h1
    · exact Or.inl h1
    · simp at h1
      exact Or.inr h1

theorem mem_inner_fold_of_mem (c : String) (ms : List (String × MetricValue)) :
    ∀ (acc : List String) (x : String), x ∈ acc →
      x ∈ ms.foldl (fun a me => setAdd a (joinKey c me.1)) acc := by
  induction ms with
  | nil => intro acc x h; exact h
  | cons hd t ih =>
    intro acc x h
    simp only [List.foldl_cons]
    exact ih _ _ (mem_setAdd_of_mem _ _ _ h)

theorem mem_inner_fold (c m : String) (v : MetricValue) (ms : List (String × MetricValue)) :
    ∀ (acc : List String), (m, v) ∈ ms →
      joinKey c m ∈ ms.foldl (fun a me => setAdd a (joinKey c me.1)) acc := by
  induction ms with
  | nil => intro acc h; simp at h
  | cons hd t ih =>
    intro acc h
    simp only [List.foldl_cons]
    rcases List.mem_cons.mp h with h1 | h1
    · subst h1
      exact mem_inner_fold_of_mem _ _ _ _ (mem_setAdd_self _ _)
    · exact ih _ h1

theorem mem_outer_fold_of_mem (d : DataMap) :
    ∀ (acc : List String) (x : String), x ∈ acc →
      x ∈ d.foldl (fun acc2 ce => ce.2.foldl (fun a me => setAdd a (joinKey ce.1 me.1)) acc2) acc := by
  induction d with
  | nil => intro acc x h; exact h
  | cons hd t ih =>
    intro acc x h
    simp only [List.foldl_cons]
    exact ih _ _ (mem_inner_fold_of_mem _ _ _ _ h)

theorem mem_outer_fold (d : DataMap) (c m : String) (e : MetricValue)
    (ms : List (String × MetricValue)) (hcm : (c, ms) ∈ d) (hmv : (m, e) ∈ ms) :
    ∀ (acc : List String),
      joinKey c m ∈ d.foldl (fun acc2 ce => ce.2.foldl (fun a me => setAdd a (joinKey ce.1 me.1)) acc2) acc := by
  induction d with
  | nil => simp at hcm
  | cons hd t ih =>
    intro acc
    simp only [List.foldl_cons]
    rcases List.mem_cons.mp hcm with h1 | h1
    · subst h1
      exact mem_outer_fold_of_mem _ _ _ (mem_inner_fold _ _ _ _ _ hmv)
    · exact ih h1 _

theorem getNested_elim {α : Type} (d : NestedMap α) (c m : String) (e : α)
    (h : getNested d c m = some e) :
    ∃ ms, getAssoc d c = some ms ∧ getAssoc ms m = some e := by
  unfold getNested at h
  cases hga : getAssoc d c with
  | none => simp [hga] at h
  | some ms => exact ⟨ms, rfl, by simpa [hga] using h⟩

theorem mem_pairsOf (d : DataMap) (c m : String) (e : MetricValue)
    (h : getNested d c m = some e) : joinKey c m ∈ pairsOf d := by
  obtain ⟨ms, hms, hm⟩ := getNested_elim d c m e h
  exact mem_outer_fold d c m e ms (mem_of_getAssoc _ _ _ hms) (mem_of_getAssoc _ _ _ hm) []

theorem mem_filter_foldl (rest : List FileData) :
    ∀ (acc : List String) (x : String),
      x ∈ rest.foldl (fun acc2 fd => acc2.filter (fun p => decide (p ∈ pairsOf fd.data))) acc ↔
        x ∈ acc ∧ ∀ fd ∈ rest, x ∈ pairsOf fd.data := by
  induction rest with
  | nil => intro acc x; simp
  | cons hd t ih =>
    intro acc x
    simp only [List.foldl_cons, ih, List.mem_filter, decide_eq_true_iff, List.mem_cons]
    constructor
    · rintro ⟨⟨h1, h2⟩, h3⟩
      refine ⟨h1, fun fd hfd => ?_⟩
      rcases hfd with rfl | hfd
      · exact h2
      · exact h3 fd hfd
    · rintro ⟨h1, h2⟩
      exact ⟨⟨h1, h2 hd (Or.inl rfl)⟩, fun fd hfd => h2 fd (Or.inr hfd)⟩

theorem filterMap_length_eq_iff {α β : Type} (f : α → Option β) (l : List α) :
    (l.filterMap f).length = l.length ↔ ∀ x ∈ l, (f x).isSome = true := by
  induction l with
  | nil => simp
  | cons hd t ih =>
    cases hf : f hd with
    | none =>
      simp only [List.filterMap_cons, hf, List.length_cons]
      constructor
      · intro h
        have h2 := List.length_filterMap_le f t
        omega
      · intro h
        have h3 := h hd (List.mem_cons_self hd t)
        simp [hf] at h3
    | some b =>
      simp only [List.filterMap_cons, hf, List.length_cons]
      constructor
      · intro h
        intro x hx
        rcases List.mem_cons.mp hx with rfl | hx
        · simp [hf]
        · exact (ih.mp (by omega)) x hx
      · intro h
        have h4 : (t.filterMap f).length = t.length :=
          ih.mpr (fun x hx => h x (List.mem_cons_of_mem _ hx))
        omega

theorem filterMap_getElem_of_length_eq {α β : Type} (f : α → Option β) :
    ∀ (l : List α), (l.filterMap f).length = l.length →
      ∀ (i : Nat) (x : α), l[i]? = some x → (l.filterMap f)[i]? = f x := by
  intro l
  induction l with
  | nil => intro h i x hx; simp at hx
  | cons hd t ih =>
    intro h i x hx
    cases hf : f hd with
    | none =>
      rw [List.filterMap_cons, hf] at h
      have h2 := List.length_filterMap_le f t
      simp only [List.length_cons] at h
      omega
    | some b =>
      rw [List.filterMap_cons, hf]
      cases i with
      | zero =>
        simp only [List.getElem?_cons_zero, Option.some_inj] at hx
        subst hx
        simpa using hf.symm
      | succ n =>
        simp only [List.getElem?_cons_succ] at hx ⊢
        rw [List.filterMap_cons, hf, List.length_cons] at h
        simp only [List.length_cons] at h
        exact ih (by omega) n x hx

theorem splitColons_no_colon (xs : List Char) (hx : ':' ∉ xs) :
    ∀ acc, splitColons acc xs = [acc.reverse ++ xs] := by
  induction xs with
  | nil => intro acc; simp [splitColons]
  | cons c t ih =>
    intro acc
    have hc : c ≠ ':' := fun h => hx (h ▸ List.mem_cons_self c t)
    have ht : ':' ∉ t := fun h => hx (List.mem_cons_of_mem c h)
    cases t with
    | nil => simp [splitColons]
    | cons c2 t2 =>
      show splitColons acc (c :: c2 :: t2) = _
      rw [splitColons, if_neg (fun h => hc h.1), ih ht (c :: acc)]
      simp

theorem splitColons_append (xs ys : List Char) (hx : ':' ∉ xs) :
    ∀ acc, splitColons acc (xs ++ ':' :: ':' :: ys) = (acc.reverse ++ xs) :: splitColons [] ys := by
  induction xs with
  | nil =>
    intro acc
    rw [List.nil_append, splitColons, if_pos ⟨rfl, rfl⟩]
    simp
  | cons c t ih =>
    intro acc
    have hc : c ≠ ':' := fun h => hx (h ▸ List.mem_cons_self c t)
    have ht : ':' ∉ t := fun h => hx (List.mem_cons_of_mem c h)
    cases t with
    | nil =>
      show splitColons acc (c :: ':' :: ':' :: ys) = _
      rw [splitColons, if_neg (fun h => hc h.1), splitColons, if_pos ⟨rfl, rfl⟩]
      simp
    | cons c2 t2 =>
      show splitColons acc (c :: (c2 :: t2 ++ ':' :: ':' :: ys)) = _
      rw [show c2 :: t2 ++ ':' :: ':' :: ys = c2 :: (t2 ++ ':' :: ':' :: ys) from rfl,
        splitColons, if_neg (fun h => hc h.1)]
      have h2 := ih ht (c :: acc)
      rw [List.cons_append] at h2
      rw [h2]
      simp

theorem mk_data (s : String) : String.mk s.data = s := rfl

theorem splitPair_joinKey (c m : String) (hc : ':' ∉ c.data) (hm : ':' ∉ m.data) :
    splitPair (joinKey c m) = (c, m) := by
  unfold splitPair joinKey
  have hdata : (c ++ "::" ++ m).data = c.data ++ ':' :: ':' :: m.data := by
    simp [String.data_append]
  rw [hdata, splitColons_append c.data m.data hc [], splitColons_no_colon m.data hm []]
  simp [mk_data]

theorem getNested_foldl_analyzeStep (l : List FileData) (c m : String) :
    ∀ (pairs : List String) (res : ResMap),
      getNested (pairs.foldl (analyzeStep l) res) c m =
        if (∃ p ∈ pairs, splitPair p = (c, m)) ∧ (mkEntries l c m).length = l.length
        then some (mkSeries l c m) else getNested res c m := by
  intro pairs
  induction pairs with
  | nil => intro res; simp
  | cons p ps ih =>
    intro res
    simp only [List.foldl_cons, ih]
    by_cases hp : splitPair p = (c, m)
    · have hstep : analyzeStep l res p =
          if (mkEntries l c m).length = l.length then setNested res c m (mkSeries l c m)
          else res := by
        unfold analyzeStep
        rw [hp]
      by_cases hG : (mkEntries l c m).length = l.length
      · rw [hstep, if_pos hG]
        by_cases hps : ∃ q ∈ ps, splitPair q = (c, m)
        · rw [if_pos ⟨hps, hG⟩, if_pos ⟨⟨p, List.mem_cons_self p ps, hp⟩, hG⟩]
        · rw [if_neg (fun h => hps h.1), if_pos ⟨⟨p, List.mem_cons_self p ps, hp⟩, hG⟩,
            getNested_setNested_same]
      · rw [hstep, if_neg hG, if_neg (fun h => hG h.2), if_neg (fun h => hG h.2)]
    · have hdiff : ¬((splitPair p).1 = c ∧ (splitPair p).2 = m) := by
        intro h
        exact hp (Prod.ext h.1 h.2)
      have hstep : getNested (analyzeStep l res p) c m = getNested res c m := by
        simp only [analyzeStep]
        split
        · exact getNested_setNested_diff _ _ _ _ _ _ hdiff
        · rfl
      rw [hstep]
      by_cases hps : ∃ q ∈ ps, splitPair q = (c, m)
      · by_cases hG : (mkEntries l c m).length = l.length
        · rw [if_pos ⟨hps, hG⟩, if_pos ⟨⟨hps.choose, List.mem_cons_of_mem _ hps.choose_spec.1,
            hps.choose_spec.2⟩, hG⟩]
        · rw [if_neg (fun h => hG h.2), if_neg (fun h => hG h.2)]
      · rw [if_neg (fun h => hps h.1)]
        have : ¬∃ q ∈ p :: ps, splitPair q = (c, m) := by
          rintro ⟨q, hq, hq2⟩
          rcases List.mem_cons.mp hq with rfl | hq
          · exact hp hq2
          · exact hps ⟨q, hq, hq2⟩
        rw [if_neg (fun h => this h.1)]

theorem getNested_runAnalysis_some (l : List FileData) (c m : String) (d : MetricData)
    (h : getNested (runAnalysis l) c m = some d) :
    d = mkSeries l c m ∧ (mkEntries l c m).length = l.length := by
  cases l with
  | nil => simp [runAnalysis, getNested, getAssoc] at h
  | cons f0 rest =>
    unfold runAnalysis at h
    simp only at h
    rw [getNested_foldl_analyzeStep] at h
    split at h
    · next hcond => exact ⟨(Option.some_inj.mp h).symm, hcond.2⟩
    · simp [getNested, getAssoc] at h

theorem colonFree_of_mem (d : DataMap) (hcf : colonFreeData d = true) (c : String)
    (ms : List (String × MetricValue)) (hc : (c, ms) ∈ d) :
    ':' ∉ c.data ∧ ∀ m v, (m, v) ∈ ms → ':' ∉ m.data := by
  rw [colonFreeData, List.all_eq_true] at hcf
  have h2 := hcf (c, ms) hc
  simp only [Bool.and_eq_true, List.all_eq_true, bne_iff_ne, ne_eq] at h2
  constructor
  · intro hmem
    exact h2.1 ':' hmem rfl
  · intro m v hmv hmem
    exact h2.2 (m, v) hmv ':' hmem rfl

theorem foldl_add_eq_sum (l : List ℚ) : ∀ a, l.foldl (· + ·) a = a + l.sum := by
  induction l with
  | nil => intro a; simp
  | cons x t ih => intro a; simp [List.foldl_cons, ih]; ring

theorem foldl_add_map_eq_sum (f : ℚ → ℚ) (l : List ℚ) :
    ∀ a, l.foldl (fun s v => s + f v) a = a + (l.map f).sum := by
  induction l with
  | nil => intro a; simp
  | cons x t ih => intro a; simp [List.foldl_cons, ih]; ring

theorem sampleVarianceAux_eq (valid : List ℚ) :
    sampleVarianceAux valid =
      ((valid.map (fun v => (v - valid.sum / (valid.length : ℚ)) ^ 2)).sum)
        / ((valid.length : ℚ) - 1) := by
  unfold sampleVarianceAux
  dsimp only
  rw [foldl_add_eq_sum, foldl_add_map_eq_sum]
  simp

/-- Claim C1 counterexample: with a category name containing `"::"`, a pair
present in *every* input file is nevertheless missing from the analyzer
output — the analyzer's `"category::metric"` join/split round-trip breaks,
so the output key set is not the intersection of the per-file key sets. -/
theorem runAnalysis_key_intersection_cex :
    (∀ fd ∈ [(⟨"f1", [("A::B", [("m", ⟨1, false⟩)])]⟩ : FileData),
        ⟨"f2", [("A::B", [("m", ⟨1, false⟩)])]⟩],
      (getNested fd.data "A::B" "m").isSome = true)
    ∧ getNested (runAnalysis [⟨"f1", [("A::B", [("m", ⟨1, false⟩)])]⟩,
        ⟨"f2", [("A::B", [("m", ⟨1, false⟩)])]⟩]) "A::B" "m" = none :=
  ⟨by decide, rfl⟩

/-- Claim C1 (corrected: restricted to a nonempty file list whose category
and metric names contain no colon — see `runAnalysis_key_intersection_cex`
for why the restriction is forced): a `(category, metric)` pair has a series
in the analyzer output exactly when the pair is present in the data of every
input file (set-intersection of the per-file key sets). -/
theorem runAnalysis_key_intersection_of_colonFree (l : List FileData) (c m : String) (hne : l ≠ [])
    (hcf : ∀ fd ∈ l, colonFreeData fd.data = true) :
    (getNested (runAnalysis l) c m).isSome = true ↔
      ∀ fd ∈ l, (getNested fd.data c m).isSome = true := by
  constructor
  · intro h
    obtain ⟨d, hd⟩ := Option.isSome_iff_exists.mp h
    obtain ⟨-, hG⟩ := getNested_runAnalysis_some l c m d hd
    intro fd hfd
    exact (filterMap_length_eq_iff _ _).mp hG fd hfd
  · intro h
    cases l with
    | nil => exact absurd rfl hne
    | cons f0 rest =>
      obtain ⟨e0, he0⟩ := Option.isSome_iff_exists.mp (h f0 (List.mem_cons_self f0 rest))
      obtain ⟨ms, hms, hmm⟩ := getNested_elim f0.data c m e0 he0
      obtain ⟨hcFree, hmFreeAll⟩ :=
        colonFree_of_mem f0.data (hcf f0 (List.mem_cons_self f0 rest)) c ms
          (mem_of_getAssoc _ _ _ hms)
      have hmFree : ':' ∉ m.data := hmFreeAll m e0 (mem_of_getAssoc _ _ _ hmm)
      have hmemR : ∀ fd ∈ rest, joinKey c m ∈ pairsOf fd.data := by
        intro fd hfd
        obtain ⟨e, he⟩ := Option.isSome_iff_exists.mp (h fd (List.mem_cons_of_mem f0 hfd))
        exact mem_pairsOf _ _ _ _ he
      have hcommon : joinKey c m ∈
          rest.foldl (fun acc fd => acc.filter (fun p => decide (p ∈ pairsOf fd.data)))
            (pairsOf f0.data) :=
        (mem_filter_foldl rest (pairsOf f0.data) (joinKey c m)).mpr
          ⟨mem_pairsOf _ _ _ _ he0, hmemR⟩
      have hG : (mkEntries (f0 :: rest) c m).length = (f0 :: rest).length :=
        (filterMap_length_eq_iff _ _).mpr h
      unfold runAnalysis
      simp only
      rw [getNested_foldl_analyzeStep,
        if_pos ⟨⟨joinKey c m, hcommon, splitPair_joinKey c m hcFree hmFree⟩, hG⟩]
      rfl

/-- Claim C1 witness: the amended intersection property applied to a
concrete one-file input. -/
theorem runAnalysis_key_intersection_witness :
    ([(⟨"a", [("C", [("M", ⟨3, true⟩)])]⟩ : FileData)] ≠ [])
    ∧ ((getNested (runAnalysis [⟨"a", [("C", [("M", ⟨3, true⟩)])]⟩]) "C" "M").isSome = true ↔
        ∀ fd ∈ [(⟨"a", [("C", [("M", ⟨3, true⟩)])]⟩ : FileData)],
          (getNested fd.data "C" "M").isSome = true) :=
  ⟨by simp, runAnalysis_key_intersection_of_colonFree _ "C" "M" (by simp) (by decide)⟩

/-- Claim C2 (confirmed): for every series in the analyzer output,
`delta`/`percentChange` are computed exactly when the file count is 2
(`delta = values[1] - values[0]`, `percentChange` from `values[0]` as
baseline to `values[1]`) and are null otherwise, and `stdDev` is computed
exactly when the file count is ≥ 2.  With one input file all three are
null (instantiate the second and fourth conjuncts at length 1). -/
theorem runAnalysis_stats_by_file_count (l : List FileData) (c m : String) (d : MetricData)
    (h : getNested (runAnalysis l) c m = some d) :
    (l.length = 2 →
        d.delta = some (d.values.getD 1 0 - d.values.getD 0 0)
        ∧ d.percentChange = calculatePercentChange d.values[0]? d.values[1]?)
    ∧ (l.length ≠ 2 → d.delta = none ∧ d.percentChange = none)
    ∧ (2 ≤ l.length → d.stdDev = some (calculateStdDev (d.values.map JsVal.num)))
    ∧ (l.length < 2 → d.stdDev = none) := by
  obtain ⟨hd, hG⟩ := getNested_runAnalysis_some l c m d h
  subst hd
  refine ⟨fun h2 => ⟨?_, ?_⟩, fun h2 => ⟨?_, ?_⟩, fun h2 => ?_, fun h2 => ?_⟩
  · simp [mkSeries, h2]
  · simp [mkSeries, h2]
  · simp [mkSeries, h2]
  · simp [mkSeries, h2]
  · simp [mkSeries, h2]
  · simp [mkSeries, h2, Nat.not_le.mpr h2]

/-- Claim C2 witness: for a concrete single-file analysis, the theorem
yields `delta = none`. -/
theorem runAnalysis_stats_by_file_count_witness :
    getNested (runAnalysis [⟨"a", [("C", [("M", ⟨3, true⟩)])]⟩]) "C" "M"
      = some ⟨[3], [true], none, none, none⟩
    ∧ (⟨[3], [true], none, none, none⟩ : MetricData).delta = none := by
  have h : getNested (runAnalysis [⟨"a", [("C", [("M", ⟨3, true⟩)])]⟩]) "C" "M"
      = some ⟨[3], [true], none, none, none⟩ := rfl
  exact ⟨h, ((runAnalysis_stats_by_file_count _ "C" "M" _ h).2.1 (by decide)).1⟩

/-- Claim C3 (confirmed): parsing the value line
`"Latency (ms): 123.4 | FLAG"` while the current category is `"Saccades"`
yields exactly `{Saccades: {Latency: {value: 123.4, isFlagged: true}}}` —
the metric name is the text before the first colon with the trailing
parenthesized suffix removed; the same line without the `| FLAG` marker
yields `isFlagged = false`. -/
theorem parseVngText_value_line_example :
    parseLine ⟨"Saccades", []⟩ "Latency (ms): 123.4 | FLAG".data
      = ⟨"Saccades", [("Saccades", [("Latency", ⟨123.4, true⟩)])]⟩
    ∧ parseLine ⟨"Saccades", []⟩ "Latency (ms): 123.4".data
      = ⟨"Saccades", [("Saccades", [("Latency", ⟨123.4, false⟩)])]⟩ := by
  have h3 : jsParseFloat "123.4".data = some (123.4 : ℚ) := by
    simp [jsParseFloat, digitsToNat]
    norm_num
  have h5 : String.mk (trimC (replaceParen (trimC "Latency (ms)".data))) = "Latency" := by decide
  constructor
  · have h0 : (trimC "Latency (ms): 123.4 | FLAG".data).isEmpty = false := by decide
    have h2 : execValue (trimC "Latency (ms): 123.4 | FLAG".data) = some ("123.4".data, true) := by
      decide
    have h4 : beforeColon (trimC "Latency (ms): 123.4 | FLAG".data) = some "Latency (ms)".data := by
      decide
    simp only [parseLine, h0, h2, h3, h4, h5]
    simp [setNested]
  · have h0 : (trimC "Latency (ms): 123.4".data).isEmpty = false := by decide
    have h2 : execValue (trimC "Latency (ms): 123.4".data) = some ("123.4".data, false) := by
      decide
    have h4 : beforeColon (trimC "Latency (ms): 123.4".data) = some "Latency (ms)".data := by
      decide
    simp only [parseLine, h0, h2, h3, h4, h5]
    simp [setNested]

/-- Claim C4 (confirmed): a trimmed nonempty line that fails the value
regex and ends with `:` and is not the findings-summary header sets the
current category to the line minus the trailing `:`, with a trailing
`" //"` suffix also stripped; a findings-summary header line is skipped
without changing the category.  Concretely, `"VISUOMOTOR //:"` followed by
`"Gain: 0.85"` parses to category `"VISUOMOTOR"` with `Gain = {0.85, false}`. -/
theorem parseVngText_category_header :
    (∀ st line, (trimC line).isEmpty = false → execValue (trimC line) = none →
      endsWithC [':'] (trimC line) = true → hasInfix summaryChars (trimC line) = false →
      parseLine st line = { st with cat := String.mk (
        if endsWithC [' ', '/', '/'] (trimC (trimC line).dropLast) then
          trimC ((trimC (trimC line).dropLast).take ((trimC (trimC line).dropLast).length - 3))
        else trimC (trimC line).dropLast) })
    ∧ (∀ st line, (trimC line).isEmpty = false → execValue (trimC line) = none →
      endsWithC [':'] (trimC line) = true → hasInfix summaryChars (trimC line) = true →
      parseLine st line = st)
    ∧ parseVngText "VISUOMOTOR //:\nGain: 0.85"
        = [("VISUOMOTOR", [("Gain", ⟨0.85, false⟩)])] := by
  refine ⟨?_, ?_, ?_⟩
  · intro st line h0 h1 h2 h3
    simp only [parseLine, h0, h1, h2, h3]
    simp
  · intro st line h0 h1 h2 h3
    simp only [parseLine, h0, h1, h2, h3]
    simp
  · have hline1 : parseLine ⟨"General", []⟩ "VISUOMOTOR //:".data = ⟨"VISUOMOTOR", []⟩ := by
      decide
    have h0 : (trimC "Gain: 0.85".data).isEmpty = false := by decide
    have h2 : execValue (trimC "Gain: 0.85".data) = some ("0.85".data, false) := by decide
    have h3 : jsParseFloat "0.85".data = some (0.85 : ℚ) := by
      simp [jsParseFloat, digitsToNat]
      norm_num
    have h4 : beforeColon (trimC "Gain: 0.85".data) = some "Gain".data := by decide
    have h5 : String.mk (trimC (replaceParen (trimC "Gain".data))) = "Gain" := by decide
    have hline2 : parseLine ⟨"VISUOMOTOR", []⟩ "Gain: 0.85".data
        = ⟨"VISUOMOTOR", [("VISUOMOTOR", [("Gain", ⟨0.85, false⟩)])]⟩ := by
      simp only [parseLine, h0, h2, h3, h4, h5]
      simp [setNested]
    rw [parseVngText, if_neg (by decide),
      show splitOnCharC '\n' "VISUOMOTOR //:\nGain: 0.85".data
        = ["VISUOMOTOR //:".data, "Gain: 0.85".data] from by decide,
      List.foldl_cons, hline1, List.foldl_cons, hline2, List.foldl_nil]

/-- Claim C4 witness: the header rule applied to the concrete line
`"FOO //:"`. -/
theorem parseVngText_category_header_witness :
    (trimC "FOO //:".data).isEmpty = false
    ∧ parseLine ⟨"General", []⟩ "FOO //:".data = ⟨"FOO", []⟩ := by
  refine ⟨by decide, ?_⟩
  have h := parseVngText_category_header.1 ⟨"General", []⟩ "FOO //:".data (by decide) (by decide) (by decide) (by decide)
  rw [h]
  decide

/-- Claim C5 (confirmed): `calculatePercentChange` returns null when either
argument is null/undefined; from a zero baseline it returns 0 when the new
value is also 0 and null otherwise; for every other pair it returns
`(newValue - baseline) / baseline * 100`; and
`percentChange(0,0) = 0`, `percentChange(0,5) = null`,
`percentChange(100,150) = 50`. -/
theorem calculatePercentChange_spec :
    (∀ n, calculatePercentChange none n = none)
    ∧ (∀ b, calculatePercentChange b none = none)
    ∧ calculatePercentChange (some 0) (some 0) = some 0
    ∧ (∀ n : ℚ, n ≠ 0 → calculatePercentChange (some 0) (some n) = none)
    ∧ (∀ b n : ℚ, b ≠ 0 → calculatePercentChange (some b) (some n) = some ((n - b) / b * 100))
    ∧ calculatePercentChange (some 0) (some 5) = none
    ∧ calculatePercentChange (some 100) (some 150) = some 50 := by
  refine ⟨?_, ?_, ?_, ?_, ?_, ?_, ?_⟩
  · intro n; cases n <;> rfl
  · intro b; cases b <;> rfl
  · simp [calculatePercentChange]
  · intro n hn; simp [calculatePercentChange, hn]
  · intro b n hb; simp [calculatePercentChange, hb]
  · norm_num [calculatePercentChange]
  · norm_num [calculatePercentChange]

/-- Claim C5 witness: the nonzero-baseline formula applied at baseline 2,
new value 3. -/
theorem calculatePercentChange_spec_witness :
    (2 : ℚ) ≠ 0 ∧ calculatePercentChange (some 2) (some 3) = some ((3 - 2) / 2 * 100) :=
  ⟨by norm_num, calculatePercentChange_spec.2.2.2.2.1 2 3 (by norm_num)⟩

/-- Claim C6 (confirmed): `calculateStdDev` returns 0 for every input with
fewer than two valid (non-null, non-NaN) entries, and otherwise the square
root of the sample variance of the valid entries (squared deviations summed
and divided by n-1); `sampleStdDev([5]) = 0`, `sampleStdDev([2,2]) = 0`,
`sampleStdDev([1,2,3]) = 1`. -/
theorem calculateStdDev_spec :
    (∀ vs : List JsVal, (vs.filterMap JsVal.toNum).length < 2 → calculateStdDev vs = 0)
    ∧ (∀ vs : List JsVal, 2 ≤ (vs.filterMap JsVal.toNum).length →
        calculateStdDev vs = Real.sqrt
          (((((vs.filterMap JsVal.toNum).map
              (fun v => (v - (vs.filterMap JsVal.toNum).sum
                / ((vs.filterMap JsVal.toNum).length : ℚ)) ^ 2)).sum
            / (((vs.filterMap JsVal.toNum).length : ℚ) - 1) : ℚ) : ℝ)))
    ∧ calculateStdDev [JsVal.num 5] = 0
    ∧ calculateStdDev [JsVal.num 2, JsVal.num 2] = 0
    ∧ calculateStdDev [JsVal.num 1, JsVal.num 2, JsVal.num 3] = 1 := by
  refine ⟨?_, ?_, ?_, ?_, ?_⟩
  · intro vs h
    unfold calculateStdDev
    by_cases hlen : vs.length < 2
    · rw [if_pos hlen]
    · rw [if_neg hlen, if_pos h]
  · intro vs h
    have hle := List.length_filterMap_le JsVal.toNum vs
    unfold calculateStdDev
    rw [if_neg (by omega), if_neg (by omega), sampleVarianceAux_eq]
  · unfold calculateStdDev
    simp
  · have hvar : sampleVarianceAux [2, 2] = 0 := by norm_num [sampleVarianceAux]
    unfold calculateStdDev
    simp [JsVal.toNum, hvar]
  · have hvar : sampleVarianceAux [1, 2, 3] = 1 := by norm_num [sampleVarianceAux]
    unfold calculateStdDev
    simp [JsVal.toNum, hvar]

/-- Claim C6 witness: the fewer-than-two-valid-entries rule applied to the
one-element list `[NaN]`. -/
theorem calculateStdDev_spec_witness :
    ([JsVal.nan].filterMap JsVal.toNum).length < 2 ∧ calculateStdDev [JsVal.nan] = 0 :=
  ⟨by decide, calculateStdDev_spec.1 [JsVal.nan] (by decide)⟩

/-- Claim C7 counterexample: two identical texts whose category name
contains `"::"` parse to identical structures with a common pair, yet the
analysis output contains no series at all for that pair. -/
theorem runAnalysis_roundtrip_cex :
    keyShape (parseVngText "A::B:\nm: 1") = keyShape (parseVngText "A::B:\nm: 1")
    ∧ (getNested (parseVngText "A::B:\nm: 1") "A::B" "m").isSome = true
    ∧ getNested (runAnalysis [⟨"f1", parseVngText "A::B:\nm: 1"⟩,
        ⟨"f2", parseVngText "A::B:\nm: 1"⟩]) "A::B" "m" = none :=
  ⟨rfl, by decide, rfl⟩

/-- Claim C7 (corrected: the common pair must additionally have colon-free
names — see `runAnalysis_roundtrip_cex` for why that is forced): parsing two
texts with the same category/metric key structure and analyzing the two
parsed files yields, for each common pair, a series whose `values` list the
two files' readings in input order and whose
`delta = values[1] - values[0]`. -/
theorem runAnalysis_roundtrip_order_delta (t1 t2 n1 n2 c m : String) (e1 e2 : MetricValue)
    (_hshape : keyShape (parseVngText t1) = keyShape (parseVngText t2))
    (hc : ':' ∉ c.data) (hm : ':' ∉ m.data)
    (h1 : getNested (parseVngText t1) c m = some e1)
    (h2 : getNested (parseVngText t2) c m = some e2) :
    ∃ d, getNested (runAnalysis [⟨n1, parseVngText t1⟩, ⟨n2, parseVngText t2⟩]) c m = some d
      ∧ d.values = [e1.value, e2.value]
      ∧ d.flags = [e1.isFlagged, e2.isFlagged]
      ∧ d.delta = some (e2.value - e1.value) := by
  set l : List FileData := [⟨n1, parseVngText t1⟩, ⟨n2, parseVngText t2⟩] with hl
  have hE : mkEntries l c m = [e1, e2] := by
    simp [mkEntries, hl, List.filterMap, h1, h2]
  have hcommon : joinKey c m ∈
      [(⟨n2, parseVngText t2⟩ : FileData)].foldl
        (fun acc fd => acc.filter (fun p => decide (p ∈ pairsOf fd.data)))
        (pairsOf (parseVngText t1)) := by
    refine (mem_filter_foldl _ _ _).mpr ⟨mem_pairsOf _ _ _ _ h1, ?_⟩
    intro fd hfd
    rcases List.mem_singleton.mp hfd with rfl
    exact mem_pairsOf _ _ _ _ h2
  have hG : (mkEntries l c m).length = l.length := by rw [hE, hl]; rfl
  refine ⟨mkSeries l c m, ?_, ?_, ?_, ?_⟩
  · rw [hl]
    unfold runAnalysis
    simp only
    rw [getNested_foldl_analyzeStep,
      if_pos ⟨⟨joinKey c m, hcommon, splitPair_joinKey c m hc hm⟩, by rw [← hl]; exact hG⟩]
  · simp [mkSeries, hE]
  · simp [mkSeries, hE]
  · simp [mkSeries, hE, hl]

/-- Claim C7 witness: the round-trip property applied to the concrete texts
`"Gain: 1"` and `"Gain: 2"`. -/
theorem runAnalysis_roundtrip_witness :
    keyShape (parseVngText "Gain: 1") = keyShape (parseVngText "Gain: 2")
    ∧ ∃ d, getNested (runAnalysis [⟨"f1", parseVngText "Gain: 1"⟩,
        ⟨"f2", parseVngText "Gain: 2"⟩]) "General" "Gain" = some d
      ∧ d.values = [(1 : ℚ), 2]
      ∧ d.flags = [false, false]
      ∧ d.delta = some ((2 : ℚ) - 1) := by
  have hpp : jsParseFloat "1".data = some (1 : ℚ) := by
    simp [jsParseFloat, digitsToNat]
  have hpp2 : jsParseFloat "2".data = some (2 : ℚ) := by
    simp [jsParseFloat, digitsToNat]
  have h5 : String.mk (trimC (replaceParen (trimC "Gain".data))) = "Gain" := by decide
  have hp1 : parseVngText "Gain: 1" = [("General", [("Gain", ⟨1, false⟩)])] := by
    rw [parseVngText, if_neg (by decide),
      show splitOnCharC '\n' "Gain: 1".data = ["Gain: 1".data] from by decide,
      List.foldl_cons, List.foldl_nil]
    have h0 : (trimC "Gain: 1".data).isEmpty = false := by decide
    have h2 : execValue (trimC "Gain: 1".data) = some ("1".data, false) := by decide
    have h4 : beforeColon (trimC "Gain: 1".data) = some "Gain".data := by decide
    simp [parseLine, h0, h2, hpp, h4, h5, setNested]
  have hp2 : parseVngText "Gain: 2" = [("General", [("Gain", ⟨2, false⟩)])] := by
    rw [parseVngText, if_neg (by decide),
      show splitOnCharC '\n' "Gain: 2".data = ["Gain: 2".data] from by decide,
      List.foldl_cons, List.foldl_nil]
    have h0 : (trimC "Gain: 2".data).isEmpty = false := by decide
    have h2 : execValue (trimC "Gain: 2".data) = some ("2".data, false) := by decide
    have h4 : beforeColon (trimC "Gain: 2".data) = some "Gain".data := by decide
    simp [parseLine, h0, h2, hpp2, h4, h5, setNested]
  have hshape : keyShape (parseVngText "Gain: 1") = keyShape (parseVngText "Gain: 2") := by
    rw [hp1, hp2]
    rfl
  have h1 : getNested (parseVngText "Gain: 1") "General" "Gain" = some ⟨1, false⟩ := by
    rw [hp1]; rfl
  have h2 : getNested (parseVngText "Gain: 2") "General" "Gain" = some ⟨2, false⟩ := by
    rw [hp2]; rfl
  exact ⟨hshape, runAnalysis_roundtrip_order_delta "Gain: 1" "Gain: 2" "f1" "f2" "General" "Gain" ⟨1, false⟩ ⟨2, false⟩
    hshape (by decide) (by decide) h1 h2⟩

/-- Claim C8 (confirmed): the parser is total by construction (it is a Lean
function, with no exceptions or side effects in the model); the empty
(falsy) input yields the empty map, blank lines are skipped, and a line
that matches neither the value pattern nor the header pattern leaves the
parser state unchanged. -/
theorem parseVngText_total_and_skips :
    parseVngText "" = []
    ∧ (∀ st line, (trimC line).isEmpty = true → parseLine st line = st)
    ∧ (∀ st line, execValue (trimC line) = none →
        endsWithC [':'] (trimC line) = false → parseLine st line = st) := by
  refine ⟨rfl, ?_, ?_⟩
  · intro st line h0
    simp [parseLine, h0]
  · intro st line h1 h2
    by_cases h0 : (trimC line).isEmpty = true
    · simp [parseLine, h0]
    · simp only [Bool.not_eq_true] at h0
      simp [parseLine, h0, h1, h2]

/-- Claim C8 witness: a concrete malformed line is skipped without
changing the state. -/
theorem parseVngText_total_and_skips_witness :
    execValue (trimC "some malformed line".data) = none
    ∧ parseLine ⟨"General", []⟩ "some malformed line".data = ⟨"General", []⟩ :=
  ⟨by decide, parseVngText_total_and_skips.2.2 ⟨"General", []⟩ "some malformed line".data (by decide) (by decide)⟩

/-- Claim C9 (confirmed): for every series in the analyzer output,
`values.length = flags.length = number of input files`, and the i-th entry
of each is the value/flag of that pair in the i-th input file. -/
theorem runAnalysis_series_aligned_lengths (l : List FileData) (c m : String) (d : MetricData)
    (h : getNested (runAnalysis l) c m = some d) :
    d.values.length = l.length ∧ d.flags.length = l.length
    ∧ ∀ i, i < l.length → ∃ fd e, l[i]? = some fd ∧ getNested fd.data c m = some e
        ∧ d.values[i]? = some e.value ∧ d.flags[i]? = some e.isFlagged := by
  obtain ⟨hd, hG⟩ := getNested_runAnalysis_some l c m d h
  subst hd
  refine ⟨by simp [mkSeries, hG], by simp [mkSeries, hG], fun i hi => ?_⟩
  obtain ⟨fd, hfd⟩ : ∃ fd, l[i]? = some fd := by
    rw [List.getElem?_eq_getElem hi]
    exact ⟨_, rfl⟩
  have hG2 : (List.filterMap (fun fd => getNested fd.data c m) l).length = l.length := hG
  have hent := filterMap_getElem_of_length_eq (fun fd => getNested fd.data c m) l hG2 i fd hfd
  simp only at hent
  cases he : getNested fd.data c m with
  | none =>
    rw [he] at hent
    have hlen : i < (List.filterMap (fun fd => getNested fd.data c m) l).length := by
      rw [hG2]; exact hi
    rw [List.getElem?_eq_getElem hlen] at hent
    exact absurd hent (by simp)
  | some e =>
    rw [he] at hent
    refine ⟨fd, e, hfd, he, ?_, ?_⟩
    · show ((mkEntries l c m).map MetricValue.value)[i]? = some e.value
      rw [List.getElem?_map, show mkEntries l c m = List.filterMap (fun fd => getNested fd.data c m) l from rfl,
        hent]
      rfl
    · show ((mkEntries l c m).map MetricValue.isFlagged)[i]? = some e.isFlagged
      rw [List.getElem?_map, show mkEntries l c m = List.filterMap (fun fd => getNested fd.data c m) l from rfl,
        hent]
      rfl

/-- Claim C9 witness: the alignment property applied to a concrete
one-file analysis. -/
theorem runAnalysis_series_aligned_lengths_witness :
    getNested (runAnalysis [⟨"b", [("C", [("M", ⟨4, false⟩)])]⟩]) "C" "M"
      = some ⟨[4], [false], none, none, none⟩
    ∧ (⟨[4], [false], none, none, none⟩ : MetricData).values.length
        = [(⟨"b", [("C", [("M", ⟨4, false⟩)])]⟩ : FileData)].length := by
  have h : getNested (runAnalysis [⟨"b", [("C", [("M", ⟨4, false⟩)])]⟩]) "C" "M"
      = some ⟨[4], [false], none, none, none⟩ := rfl
  exact ⟨h, (runAnalysis_series_aligned_lengths _ "C" "M" _ h).1⟩

/-- Claim C10 (confirmed): a matched value line whose numeric token parses
to NaN creates no entry (the parser state is unchanged); by construction of
the model every stored `value` is a (non-NaN) rational and `isFlagged` a
boolean — `"X: -"` parses to the empty map. -/
theorem parseVngText_nan_value_skipped :
    (∀ st line numStr flagged, execValue (trimC line) = some (numStr, flagged) →
      jsParseFloat numStr = none → parseLine st line = st)
    ∧ parseVngText "Latency: -" = [] := by
  refine ⟨?_, by decide⟩
  intro st line numStr flagged h1 h2
  by_cases h0 : (trimC line).isEmpty = true
  · simp [parseLine, h0]
  · simp only [Bool.not_eq_true] at h0
    simp [parseLine, h0, h1, h2]

/-- Claim C10 witness: the NaN-skip rule applied to the concrete line
`"X: -"` whose numeric token `"-"` parses to NaN. -/
theorem parseVngText_nan_value_skipped_witness :
    jsParseFloat "-".data = none
    ∧ parseLine ⟨"General", []⟩ "X: -".data = ⟨"General", []⟩ :=
  ⟨by decide, parseVngText_nan_value_skipped.1 ⟨"General", []⟩ "X: -".data "-".data false (by decide) (by decide)⟩
